import Mathlib

/-!
# Verification of the paper-trading core

A shallow embedding, in Lean 4, of the decision-and-settlement core of the
stock-market-simulation repository:

* position ledger — `app/services/trading_service.py`
  (`TradingService.execute_buy_trade`, `TradingService.execute_sell_trade`)
  with the risk profiles of `src/config.py` (`TradingConfig.RISK_PROFILES`);
* indicator engine — `app/services/indicator_service.py`
  (`IndicatorService._calculate_rsi`);
* quota governor — `src/services/api_limit_service.py`
  (`ApiLimitService.can_make_request`, `ApiLimitService.record_api_call`);
* watchlist selector — `src/services/watchlist_service.py`
  (`WatchlistService.get_priority_tickers` and helpers).

Currency amounts and prices are modelled as exact rationals (`ℚ`): the Python
code mixes binary floats with `Decimal` via `Decimal(str(x))` round-trips, and
this embedding idealizes both as exact rational arithmetic.  Integer share
quantities are `ℤ` (the `portfolio.quantity` column is a signed SQL integer).
Database rows held in SQLAlchemy sessions become plain Lean structures; a
table becomes a list of rows, `query.first()` becomes `List.find?`, mutation
of the first matching row becomes an update of the first matching list entry,
and `db.add` appends.  Timestamps (`datetime.utcnow()`) are abstracted as a
`now : ℕ` parameter passed to each operation.
-/

set_option autoImplicit false

namespace StockSim

/-! ## Generic first-match list updates

SQLAlchemy's `query.filter_by(...).first()` followed by a mutation of that one
row, or `db.session.delete` of that row, acts on the first matching element of
the table.  These helpers mirror that behaviour on lists. -/

/-- Replace the first element satisfying `p` by its image under `f`
(no change when no element matches). -/
def updateFirst {α : Type} (p : α → Bool) (f : α → α) : List α → List α
  | [] => []
  | x :: xs => if p x then f x :: xs else x :: updateFirst p f xs

/-- Remove the first element satisfying `p` (no change when no element
matches). -/
def removeFirst {α : Type} (p : α → Bool) : List α → List α
  | [] => []
  | x :: xs => if p x then xs else x :: removeFirst p xs

theorem mem_updateFirst {α : Type} {p : α → Bool} {f : α → α} {l : List α}
    {x : α} (hx : x ∈ updateFirst p f l) :
    x ∈ l ∨ ∃ h, l.find? p = some h ∧ x = f h := by
  induction l with
  | nil => simp [updateFirst] at hx
  | cons a as ih =>
    by_cases hp : p a
    · rw [updateFirst, if_pos hp] at hx
      rcases List.mem_cons.mp hx with hxa | hxs
      · exact Or.inr ⟨a, List.find?_cons_of_pos _ hp, hxa⟩
      · exact Or.inl (List.mem_cons_of_mem _ hxs)
    · rw [updateFirst, if_neg hp] at hx
      rcases List.mem_cons.mp hx with hxa | hxs
      · exact Or.inl (hxa ▸ List.mem_cons_self _ _)
      · rcases ih hxs with h | h
        · exact Or.inl (List.mem_cons_of_mem _ h)
        · rcases h with ⟨b, hb, hxb⟩
          exact Or.inr ⟨b, by rw [List.find?_cons_of_neg _ hp]; exact hb, hxb⟩

theorem mem_removeFirst {α : Type} {p : α → Bool} {l : List α} {x : α}
    (hx : x ∈ removeFirst p l) : x ∈ l := by
  induction l with
  | nil => simp [removeFirst] at hx
  | cons a as ih =>
    by_cases hp : p a
    · rw [removeFirst, if_pos hp] at hx
      exact List.mem_cons_of_mem _ hx
    · rw [removeFirst, if_neg hp] at hx
      rcases List.mem_cons.mp hx with hxa | hxs
      · exact hxa ▸ List.mem_cons_self _ _
      · exact List.mem_cons_of_mem _ (ih hxs)

/-! ## Position ledger: data model

`models.py`: `Trader` (`current_balance` is `Numeric(12,2)`,
`risk_tolerance` a free string defaulting to `'medium'`), `Portfolio` (one row
per `(trader_id, ticker)`; integer `quantity`, decimal `average_price` and
`total_cost`), `Trade` (append-only log). -/

structure Trader where
  risk_tolerance : String
  current_balance : ℚ
  last_trade_at : Option ℕ
  deriving Repr, DecidableEq

structure Holding where
  ticker : String
  quantity : ℤ
  average_price : ℚ
  total_cost : ℚ
  first_purchased_at : ℕ
  last_updated_at : ℕ
  deriving Repr, DecidableEq

inductive TradeAction where
  | buy
  | sell
  deriving Repr, DecidableEq

structure TradeRec where
  ticker : String
  action : TradeAction
  quantity : ℤ
  price : ℚ
  total_amount : ℚ
  balance_after : ℚ
  deriving Repr, DecidableEq

/-- The in-memory state a `TradingService` call operates on: the trader row,
the trader's portfolio rows and the trade log. -/
structure LedgerState where
  trader : Trader
  holdings : List Holding
  trades : List TradeRec
  deriving Repr, DecidableEq

/-- The dictionary returned by `execute_buy_trade` / `execute_sell_trade` on
success (the indicator-snapshot fields of the Python dict are omitted: they
are copied verbatim from the input and carry no ledger state). -/
structure TradeResult where
  action : TradeAction
  ticker : String
  quantity : ℤ
  price : ℚ
  total_amount : ℚ
  deriving Repr, DecidableEq

/-- `TradingConfig.get_position_size` (`src/config.py`): the
`position_size` entry of `RISK_PROFILES.get(risk_tolerance, medium)`. -/
def get_position_size (risk_tolerance : String) : ℚ :=
  if risk_tolerance = "low" then 5 / 100
  else if risk_tolerance = "medium" then 10 / 100
  else if risk_tolerance = "high" then 15 / 100
  else 10 / 100

/-- Python `int(x)` truncates toward zero. -/
def truncInt (q : ℚ) : ℤ := if 0 ≤ q then ⌊q⌋ else -⌊-q⌋

/-- `Portfolio.query.filter_by(trader_id=..., ticker=ticker).first()`. -/
def findHolding (holdings : List Holding) (ticker : String) : Option Holding :=
  holdings.find? (fun h => h.ticker == ticker)

/-- `TradingService.execute_buy_trade` (`app/services/trading_service.py`,
lines 44-118), on exact rationals.  `quantity = int(max_investment / price)`;
division by a zero price is `ZeroDivisionError` in Python, caught by the
surrounding `except` which returns `None` with no state mutated — in `ℚ` the
quotient is `0`, so the `quantity ≤ 0` guard produces the same no-trade
outcome. -/
def execute_buy_trade (st : LedgerState) (ticker : String) (price : ℚ)
    (now : ℕ) : Option TradeResult × LedgerState :=
  let position_size := get_position_size st.trader.risk_tolerance
  let max_investment := st.trader.current_balance * position_size
  let quantity : ℤ := truncInt (max_investment / price)
  if quantity ≤ 0 then (none, st)
  else
    let total_cost : ℚ := (quantity : ℚ) * price
    if st.trader.current_balance < total_cost then (none, st)
    else
      let new_balance := st.trader.current_balance - total_cost
      let holdings' :=
        match findHolding st.holdings ticker with
        | some _ =>
            updateFirst (fun h => h.ticker == ticker)
              (fun h =>
                let new_total_cost := h.total_cost + total_cost
                let new_quantity := h.quantity + quantity
                { h with
                    average_price := new_total_cost / (new_quantity : ℚ)
                    total_cost := new_total_cost
                    quantity := new_quantity
                    last_updated_at := now })
              st.holdings
        | none =>
            st.holdings ++
              [{ ticker := ticker, quantity := quantity,
                 average_price := price, total_cost := total_cost,
                 first_purchased_at := now, last_updated_at := now }]
      let trade : TradeRec :=
        { ticker := ticker, action := .buy, quantity := quantity,
          price := price, total_amount := total_cost,
          balance_after := new_balance }
      (some { action := .buy, ticker := ticker, quantity := quantity,
              price := price, total_amount := total_cost },
       { trader := { st.trader with
                       current_balance := new_balance
                       last_trade_at := some now }
         holdings := holdings'
         trades := st.trades ++ [trade] })

/-- `TradingService.execute_sell_trade` (`app/services/trading_service.py`,
lines 139-197), on exact rationals.  Python `//` is floor division; on the
positive quantities reached here it agrees with `Int`'s `/`. -/
def execute_sell_trade (st : LedgerState) (ticker : String) (price : ℚ)
    (now : ℕ) : Option TradeResult × LedgerState :=
  match findHolding st.holdings ticker with
  | none => (none, st)
  | some h =>
    if h.quantity ≤ 0 then (none, st)
    else
      let quantity : ℤ := if 2 < h.quantity then h.quantity / 2 else h.quantity
      let total_proceeds : ℚ := (quantity : ℚ) * price
      let new_balance := st.trader.current_balance + total_proceeds
      let holdings' :=
        if h.quantity - quantity = 0 then
          removeFirst (fun h2 => h2.ticker == ticker) st.holdings
        else
          updateFirst (fun h2 => h2.ticker == ticker)
            (fun h2 =>
              { h2 with
                  quantity := h2.quantity - quantity
                  total_cost := h2.total_cost - h2.average_price * (quantity : ℚ)
                  last_updated_at := now })
            st.holdings
      let trade : TradeRec :=
        { ticker := ticker, action := .sell, quantity := quantity,
          price := price, total_amount := total_proceeds,
          balance_after := new_balance }
      (some { action := .sell, ticker := ticker, quantity := quantity,
              price := price, total_amount := total_proceeds },
       { trader := { st.trader with
                       current_balance := new_balance
                       last_trade_at := some now }
         holdings := holdings'
         trades := st.trades ++ [trade] })

/-- `TradingService.get_trader_portfolio_tickers`: tickers of portfolio rows
with `quantity > 0`. -/
def get_trader_portfolio_tickers (holdings : List Holding) : List String :=
  (holdings.filter (fun h => 0 < h.quantity)).map Holding.ticker

/-! ## Ledger lemmas -/

theorem get_position_size_pos (s : String) : 0 < get_position_size s := by
  unfold get_position_size
  split_ifs <;> norm_num

theorem get_position_size_le_one (s : String) : get_position_size s ≤ 1 := by
  unfold get_position_size
  split_ifs <;> norm_num

theorem truncInt_of_nonneg {q : ℚ} (h : 0 ≤ q) : truncInt q = ⌊q⌋ := by
  simp [truncInt, h]

/-- With a positive price and non-negative balance, the cost of the computed
buy quantity never exceeds the balance: the insufficient-balance guard of
`execute_buy_trade` cannot fire. -/
theorem buy_cost_le_balance (bal price ps : ℚ) (hp : 0 < price) (hb : 0 ≤ bal)
    (hps1 : ps ≤ 1) :
    (⌊bal * ps / price⌋ : ℚ) * price ≤ bal := by
  have h1 : (⌊bal * ps / price⌋ : ℚ) ≤ bal * ps / price := Int.floor_le _
  have h2 : (⌊bal * ps / price⌋ : ℚ) * price ≤ bal * ps := by
    calc (⌊bal * ps / price⌋ : ℚ) * price
        ≤ (bal * ps / price) * price := by
          exact mul_le_mul_of_nonneg_right h1 (le_of_lt hp)
      _ = bal * ps := by field_simp
  calc (⌊bal * ps / price⌋ : ℚ) * price ≤ bal * ps := h2
    _ ≤ bal * 1 := mul_le_mul_of_nonneg_left hps1 hb
    _ = bal := mul_one bal

theorem findHolding_updateFirst (l : List Holding) (t : String)
    (f : Holding → Holding) (hf : ∀ h, (f h).ticker = h.ticker) :
    findHolding (updateFirst (fun h => h.ticker == t) f l) t =
      (findHolding l t).map f := by
  induction l with
  | nil => rfl
  | cons a as ih =>
    by_cases hp : a.ticker == t
    · rw [updateFirst, if_pos hp]
      have hfa : ((f a).ticker == t) = true := by rw [hf a]; exact hp
      unfold findHolding
      rw [@List.find?_cons_of_pos _ (fun h => h.ticker == t) (f a) as hfa,
        @List.find?_cons_of_pos _ (fun h => h.ticker == t) a as hp]
      rfl
    · rw [updateFirst, if_neg (by simpa using hp)]
      unfold findHolding
      rw [List.find?_cons_of_neg _ (by simpa using hp),
        List.find?_cons_of_neg _ (by simpa using hp)]
      exact ih

theorem findHolding_eq_none_of_not_mem (l : List Holding) (t : String)
    (ht : t ∉ l.map Holding.ticker) : findHolding l t = none := by
  apply List.find?_eq_none.mpr
  intro h hmem hbeq
  exact ht (List.mem_map.mpr ⟨h, hmem, by simpa using hbeq⟩)

theorem findHolding_removeFirst (l : List Holding) (t : String)
    (hnd : (l.map Holding.ticker).Nodup) :
    findHolding (removeFirst (fun h => h.ticker == t) l) t = none := by
  induction l with
  | nil => rfl
  | cons a as ih =>
    rw [List.map_cons, List.nodup_cons] at hnd
    by_cases hp : a.ticker == t
    · rw [removeFirst, if_pos hp]
      apply findHolding_eq_none_of_not_mem
      have : a.ticker = t := by simpa using hp
      rw [← this]; exact hnd.1
    · rw [removeFirst, if_neg (by simpa using hp)]
      unfold findHolding
      rw [List.find?_cons_of_neg _ (by simpa using hp)]
      exact ih hnd.2

/-! ## Claims about the position ledger -/

/-- **C2.** For every trader and positive price, `execute_buy_trade` buys
`quantity = ⌊position_size · current_balance / price⌋` shares — the fraction
being 5% for low, 10% for medium and 15% for high risk tolerance — and debits
the balance by exactly `quantity * price`; a trader with balance 10000 and
medium risk buying at price 100 buys 10 shares at cost 1000, leaving balance
exactly 9000. -/
theorem buy_quantity_and_debit (st : LedgerState) (ticker : String)
    (price : ℚ) (now : ℕ) (hp : 0 < price)
    (hb : 0 ≤ st.trader.current_balance) :
    get_position_size "low" = 5 / 100 ∧
    get_position_size "medium" = 10 / 100 ∧
    get_position_size "high" = 15 / 100 ∧
    (let q : ℤ :=
      ⌊get_position_size st.trader.risk_tolerance *
          st.trader.current_balance / price⌋
     (0 < q →
        (execute_buy_trade st ticker price now).1 =
          some { action := .buy, ticker := ticker, quantity := q,
                 price := price, total_amount := (q : ℚ) * price } ∧
        (execute_buy_trade st ticker price now).2.trader.current_balance =
          st.trader.current_balance - (q : ℚ) * price) ∧
     (q ≤ 0 → execute_buy_trade st ticker price now = (none, st))) := by
  refine ⟨by simp [get_position_size], by simp [get_position_size],
    by simp [get_position_size], ?_⟩
  set ps := get_position_size st.trader.risk_tolerance with hps
  set bal := st.trader.current_balance with hbal
  have hpspos : 0 < ps := get_position_size_pos _
  intro q
  have hq : q = ⌊bal * ps / price⌋ := by
    show ⌊ps * bal / price⌋ = ⌊bal * ps / price⌋
    rw [mul_comm ps bal]
  have hquot : 0 ≤ bal * ps / price :=
    div_nonneg (mul_nonneg hb (le_of_lt hpspos)) (le_of_lt hp)
  have htrunc : truncInt (bal * ps / price) = q := by
    rw [truncInt_of_nonneg hquot, hq]
  constructor
  · intro hqpos
    have h1 : ¬ q ≤ (0 : ℤ) := by omega
    have hcost : (q : ℚ) * price ≤ bal := by
      rw [hq]
      exact buy_cost_le_balance bal price ps hp hb
        (get_position_size_le_one _)
    have h2 : ¬ bal < (q : ℚ) * price := not_lt.mpr hcost
    constructor
    · simp only [execute_buy_trade, ← hps, ← hbal, htrunc, if_neg h1,
        if_neg h2]
    · simp only [execute_buy_trade, ← hps, ← hbal, htrunc, if_neg h1,
        if_neg h2]
  · intro hqle
    simp only [execute_buy_trade, ← hps, ← hbal, htrunc, if_pos hqle]

/-- **C2 witness.** Balance 10000, medium risk, price 100: quantity 10, total
cost 1000, new balance exactly 9000. -/
theorem buy_quantity_and_debit_witness :
    (execute_buy_trade
        { trader := { risk_tolerance := "medium", current_balance := 10000,
                      last_trade_at := none },
          holdings := [], trades := [] } "AAPL" 100 0).1 =
      some { action := .buy, ticker := "AAPL", quantity := 10, price := 100,
             total_amount := 1000 } ∧
    (execute_buy_trade
        { trader := { risk_tolerance := "medium", current_balance := 10000,
                      last_trade_at := none },
          holdings := [], trades := [] } "AAPL" 100 0).2.trader.current_balance
      = 9000 := by
  have h := buy_quantity_and_debit
    { trader := { risk_tolerance := "medium", current_balance := 10000,
                  last_trade_at := none },
      holdings := [], trades := [] } "AAPL" 100 0 (by norm_num) (by norm_num)
  obtain ⟨-, -, -, h4⟩ := h
  simp [get_position_size] at h4
  norm_num at h4
  exact h4

/-- **C4.** `execute_sell_trade` is a no-op returning `none` when the trader
has no holding in the ticker or its quantity is `≤ 0`; otherwise it sells
`⌊quantity/2⌋` shares when `quantity > 2` and the whole holding when
`quantity ≤ 2`, credits the balance by `sold_quantity * price`, decrements
the holding, and deletes the holding row exactly when its quantity reaches
zero.  The holdings list is assumed to carry at most one row per ticker, as
enforced by the `unique_trader_ticker` constraint of the `portfolio` table. -/
theorem sell_semantics (st : LedgerState) (ticker : String) (price : ℚ)
    (now : ℕ) (hnd : (st.holdings.map Holding.ticker).Nodup) :
    (findHolding st.holdings ticker = none →
      execute_sell_trade st ticker price now = (none, st)) ∧
    (∀ h, findHolding st.holdings ticker = some h → h.quantity ≤ 0 →
      execute_sell_trade st ticker price now = (none, st)) ∧
    (∀ h, findHolding st.holdings ticker = some h → 2 < h.quantity →
      (execute_sell_trade st ticker price now).1 =
        some { action := .sell, ticker := ticker, quantity := h.quantity / 2,
               price := price,
               total_amount := ((h.quantity / 2 : ℤ) : ℚ) * price } ∧
      (execute_sell_trade st ticker price now).2.trader.current_balance =
        st.trader.current_balance + ((h.quantity / 2 : ℤ) : ℚ) * price ∧
      findHolding (execute_sell_trade st ticker price now).2.holdings ticker =
        some { h with
                 quantity := h.quantity - h.quantity / 2
                 total_cost :=
                   h.total_cost - h.average_price * ((h.quantity / 2 : ℤ) : ℚ)
                 last_updated_at := now }) ∧
    (∀ h, findHolding st.holdings ticker = some h → 0 < h.quantity →
      h.quantity ≤ 2 →
      (execute_sell_trade st ticker price now).1 =
        some { action := .sell, ticker := ticker, quantity := h.quantity,
               price := price, total_amount := (h.quantity : ℚ) * price } ∧
      (execute_sell_trade st ticker price now).2.trader.current_balance =
        st.trader.current_balance + (h.quantity : ℚ) * price ∧
      findHolding (execute_sell_trade st ticker price now).2.holdings ticker =
        none) := by
  refine ⟨?_, ?_, ?_, ?_⟩
  · intro hfind
    simp only [execute_sell_trade, hfind]
  · intro h hfind hq
    simp only [execute_sell_trade, hfind, if_pos hq]
  · intro h hfind hq
    have hq0 : ¬ h.quantity ≤ 0 := by omega
    have hsell : (if 2 < h.quantity then h.quantity / 2 else h.quantity) =
        h.quantity / 2 := if_pos hq
    have hrem : ¬ h.quantity - h.quantity / 2 = 0 := by omega
    refine ⟨?_, ?_, ?_⟩
    · simp only [execute_sell_trade, hfind, if_neg hq0, hsell, if_neg hrem]
    · simp only [execute_sell_trade, hfind, if_neg hq0, hsell, if_neg hrem]
    · simp only [execute_sell_trade, hfind, if_neg hq0, hsell, if_neg hrem]
      rw [findHolding_updateFirst st.holdings ticker
        (fun h2 =>
          { h2 with
              quantity := h2.quantity - h.quantity / 2
              total_cost :=
                h2.total_cost - h2.average_price * ((h.quantity / 2 : ℤ) : ℚ)
              last_updated_at := now })
        (fun h2 => rfl), hfind, Option.map_some']
  · intro h hfind hq0 hq2
    have hqle : ¬ h.quantity ≤ 0 := by omega
    have hsell : (if 2 < h.quantity then h.quantity / 2 else h.quantity) =
        h.quantity := if_neg (by omega)
    have hrem : h.quantity - h.quantity = 0 := by omega
    refine ⟨?_, ?_, ?_⟩
    · simp only [execute_sell_trade, hfind, if_neg hqle, hsell, if_pos hrem]
    · simp only [execute_sell_trade, hfind, if_neg hqle, hsell, if_pos hrem]
    · simp only [execute_sell_trade, hfind, if_neg hqle, hsell, if_pos hrem]
      exact findHolding_removeFirst _ _ hnd

/-- **C4 witness.** A holding of quantity 2 at price 50: the sell liquidates
both shares (the `quantity ≤ 2` branch), credits `2 * 60 = 120`, and the
holding row is deleted; a holding of quantity 3 sells `⌊3/2⌋ = 1` share and
survives with quantity 2. -/
theorem sell_semantics_witness :
    (execute_sell_trade
        { trader := { risk_tolerance := "medium", current_balance := 1000,
                      last_trade_at := none },
          holdings := [{ ticker := "AAPL", quantity := 2, average_price := 50,
                         total_cost := 100, first_purchased_at := 0,
                         last_updated_at := 0 }],
          trades := [] } "AAPL" 60 1).2.trader.current_balance = 1120 ∧
    findHolding (execute_sell_trade
        { trader := { risk_tolerance := "medium", current_balance := 1000,
                      last_trade_at := none },
          holdings := [{ ticker := "AAPL", quantity := 2, average_price := 50,
                         total_cost := 100, first_purchased_at := 0,
                         last_updated_at := 0 }],
          trades := [] } "AAPL" 60 1).2.holdings "AAPL" = none ∧
    (execute_sell_trade
        { trader := { risk_tolerance := "medium", current_balance := 1000,
                      last_trade_at := none },
          holdings := [{ ticker := "AAPL", quantity := 3, average_price := 50,
                         total_cost := 150, first_purchased_at := 0,
                         last_updated_at := 0 }],
          trades := [] } "AAPL" 60 1).1 =
      some { action := .sell, ticker := "AAPL", quantity := 1, price := 60,
             total_amount := 60 } := by
  have h2 := (sell_semantics
    { trader := { risk_tolerance := "medium", current_balance := 1000,
                  last_trade_at := none },
      holdings := [{ ticker := "AAPL", quantity := 2, average_price := 50,
                     total_cost := 100, first_purchased_at := 0,
                     last_updated_at := 0 }],
      trades := [] } "AAPL" 60 1 (by simp)).2.2.2
    { ticker := "AAPL", quantity := 2, average_price := 50,
      total_cost := 100, first_purchased_at := 0, last_updated_at := 0 }
    (by simp [findHolding]) (by norm_num) (by norm_num)
  have h3 := (sell_semantics
    { trader := { risk_tolerance := "medium", current_balance := 1000,
                  last_trade_at := none },
      holdings := [{ ticker := "AAPL", quantity := 3, average_price := 50,
                     total_cost := 150, first_purchased_at := 0,
                     last_updated_at := 0 }],
      trades := [] } "AAPL" 60 1 (by simp)).2.2.1
    { ticker := "AAPL", quantity := 3, average_price := 50,
      total_cost := 150, first_purchased_at := 0, last_updated_at := 0 }
    (by simp [findHolding]) (by norm_num)
  refine ⟨?_, h2.2.2, ?_⟩
  · rw [h2.2.1]; norm_num
  · rw [h3.1]; norm_num

/-- **C5.** For a trader with no prior holding in a ticker, a buy that
acquires `X ≤ 2` shares at price `p`, followed immediately by a sell of the
same ticker at the same price (a full liquidation, because `X ≤ 2`), returns
`current_balance` to exactly its pre-buy value. -/
theorem buy_sell_round_trip (st : LedgerState) (ticker : String) (price : ℚ)
    (n1 n2 : ℕ) (hp : 0 < price) (hb : 0 ≤ st.trader.current_balance)
    (hnone : findHolding st.holdings ticker = none)
    (hq1 : 1 ≤ ⌊st.trader.current_balance *
        get_position_size st.trader.risk_tolerance / price⌋)
    (hq2 : ⌊st.trader.current_balance *
        get_position_size st.trader.risk_tolerance / price⌋ ≤ 2) :
    (execute_sell_trade (execute_buy_trade st ticker price n1).2 ticker price
        n2).2.trader.current_balance = st.trader.current_balance := by
  set ps := get_position_size st.trader.risk_tolerance with hps
  set bal := st.trader.current_balance with hbal
  have hpspos : 0 < ps := get_position_size_pos _
  have hquot : 0 ≤ bal * ps / price :=
    div_nonneg (mul_nonneg hb (le_of_lt hpspos)) (le_of_lt hp)
  set q : ℤ := ⌊bal * ps / price⌋ with hqdef
  have htrunc : truncInt (bal * ps / price) = q := truncInt_of_nonneg hquot
  have h1 : ¬ q ≤ (0 : ℤ) := by omega
  have h2 : ¬ bal < (q : ℚ) * price :=
    not_lt.mpr (buy_cost_le_balance bal price ps hp hb
      (get_position_size_le_one _))
  have hbuy : (execute_buy_trade st ticker price n1).2 =
      { trader := { st.trader with
                      current_balance := bal - (q : ℚ) * price
                      last_trade_at := some n1 }
        holdings := st.holdings ++
          [{ ticker := ticker, quantity := q, average_price := price,
             total_cost := (q : ℚ) * price, first_purchased_at := n1,
             last_updated_at := n1 }]
        trades := st.trades ++
          [{ ticker := ticker, action := .buy, quantity := q, price := price,
             total_amount := (q : ℚ) * price,
             balance_after := bal - (q : ℚ) * price }] } := by
    simp only [execute_buy_trade, ← hps, ← hbal, htrunc, if_neg h1, if_neg h2,
      hnone]
  rw [hbuy]
  have hfind2 : findHolding
      (st.holdings ++
        [{ ticker := ticker, quantity := q, average_price := price,
           total_cost := (q : ℚ) * price, first_purchased_at := n1,
           last_updated_at := n1 }]) ticker =
      some { ticker := ticker, quantity := q, average_price := price,
             total_cost := (q : ℚ) * price, first_purchased_at := n1,
             last_updated_at := n1 } := by
    unfold findHolding at hnone ⊢
    rw [List.find?_append, hnone, Option.none_or]
    exact List.find?_cons_of_pos _ (by simp)
  have hsell : (if 2 < q then q / 2 else q) = q := if_neg (by omega)
  have hrem : q - q = 0 := by omega
  simp only [execute_sell_trade, hfind2, if_neg h1, hsell, hrem, if_pos rfl]
  ring

/-- **C5 witness.** Balance 10000, medium risk, price 600: the buy acquires
`⌊1000/600⌋ = 1` share; selling it back at 600 restores the balance to
exactly 10000. -/
theorem buy_sell_round_trip_witness :
    (execute_sell_trade
        (execute_buy_trade
            { trader := { risk_tolerance := "medium",
                          current_balance := 10000, last_trade_at := none },
              holdings := [], trades := [] } "AAPL" 600 0).2
        "AAPL" 600 1).2.trader.current_balance = 10000 := by
  have h := buy_sell_round_trip
    { trader := { risk_tolerance := "medium", current_balance := 10000,
                  last_trade_at := none },
      holdings := [], trades := [] } "AAPL" 600 0 1 (by norm_num)
    (by norm_num) (by simp [findHolding])
    (by simp [get_position_size]; norm_num) (by simp [get_position_size]; norm_num)
  exact h

/-- **C10.** A partial sell (holding quantity strictly greater than 2, so the
holding survives) leaves the holding's `average_price` unchanged, as well as
its `ticker` and `first_purchased_at`: only `quantity`, `total_cost` and
`last_updated_at` are mutated. -/
theorem partial_sell_frame (st : LedgerState) (ticker : String) (price : ℚ)
    (now : ℕ) (h : Holding) (hfind : findHolding st.holdings ticker = some h)
    (hq : 2 < h.quantity) :
    ∃ h', findHolding (execute_sell_trade st ticker price now).2.holdings
        ticker = some h' ∧
      h'.average_price = h.average_price ∧
      h'.ticker = h.ticker ∧
      h'.first_purchased_at = h.first_purchased_at ∧
      h'.quantity = h.quantity - h.quantity / 2 ∧
      h'.total_cost = h.total_cost - h.average_price * ((h.quantity / 2 : ℤ) : ℚ) ∧
      h'.last_updated_at = now := by
  have hq0 : ¬ h.quantity ≤ 0 := by omega
  have hsell : (if 2 < h.quantity then h.quantity / 2 else h.quantity) =
      h.quantity / 2 := if_pos hq
  have hrem : ¬ h.quantity - h.quantity / 2 = 0 := by omega
  refine ⟨{ h with
              quantity := h.quantity - h.quantity / 2
              total_cost :=
                h.total_cost - h.average_price * ((h.quantity / 2 : ℤ) : ℚ)
              last_updated_at := now }, ?_, rfl, rfl, rfl, rfl, rfl, rfl⟩
  simp only [execute_sell_trade, hfind, if_neg hq0, hsell, if_neg hrem]
  rw [findHolding_updateFirst st.holdings ticker
    (fun h2 =>
      { h2 with
          quantity := h2.quantity - h.quantity / 2
          total_cost :=
            h2.total_cost - h2.average_price * ((h.quantity / 2 : ℤ) : ℚ)
          last_updated_at := now })
    (fun h2 => rfl), hfind, Option.map_some']

/-- **C10 witness.** Holding of quantity 3 at average price 50, sold at price
60: one share is sold, the survivor has quantity 2, total cost 100, and the
average price is still 50. -/
theorem partial_sell_frame_witness :
    ∃ h', findHolding (execute_sell_trade
        { trader := { risk_tolerance := "medium", current_balance := 1000,
                      last_trade_at := none },
          holdings := [{ ticker := "AAPL", quantity := 3, average_price := 50,
                         total_cost := 150, first_purchased_at := 0,
                         last_updated_at := 0 }],
          trades := [] } "AAPL" 60 1).2.holdings "AAPL" = some h' ∧
      h'.average_price = 50 ∧
      h'.ticker = "AAPL" ∧
      h'.first_purchased_at = 0 ∧
      h'.quantity = 2 ∧
      h'.total_cost = 100 ∧
      h'.last_updated_at = 1 := by
  obtain ⟨h', hfind, havg, ht, hf, hqty, htc, hlu⟩ := partial_sell_frame
    { trader := { risk_tolerance := "medium", current_balance := 1000,
                  last_trade_at := none },
      holdings := [{ ticker := "AAPL", quantity := 3, average_price := 50,
                     total_cost := 150, first_purchased_at := 0,
                     last_updated_at := 0 }],
      trades := [] } "AAPL" 60 1
    { ticker := "AAPL", quantity := 3, average_price := 50,
      total_cost := 150, first_purchased_at := 0, last_updated_at := 0 }
    (by simp [findHolding]) (by norm_num)
  refine ⟨h', hfind, ?_, ?_, ?_, ?_, ?_, ?_⟩
  · rw [havg]
  · rw [ht]
  · rw [hf]
  · rw [hqty]; decide
  · rw [htc]; norm_num
  · rw [hlu]

/-- **C3.** If the computed buy quantity is `≤ 0` or the total cost exceeds
the current balance, `execute_buy_trade` returns the no-trade result `none`
and the state — balance, holdings and trade log — is returned unchanged; this
is a normal return, not a raised exception (the Python `except` block is never
needed on this path: both guards return `None` before any mutation). -/
theorem buy_no_trade (st : LedgerState) (ticker : String) (price : ℚ)
    (now : ℕ) :
    (truncInt (st.trader.current_balance *
        get_position_size st.trader.risk_tolerance / price) ≤ 0 ∨
     st.trader.current_balance <
       (truncInt (st.trader.current_balance *
           get_position_size st.trader.risk_tolerance / price) : ℚ) * price) →
    execute_buy_trade st ticker price now = (none, st) := by
  intro h
  by_cases hq : truncInt (st.trader.current_balance *
      get_position_size st.trader.risk_tolerance / price) ≤ 0
  · simp only [execute_buy_trade, if_pos hq]
  · have hlt : st.trader.current_balance <
        (truncInt (st.trader.current_balance *
            get_position_size st.trader.risk_tolerance / price) : ℚ) * price := by
      rcases h with h | h
      · exact absurd h hq
      · exact h
    simp only [execute_buy_trade, if_neg hq, if_pos hlt]

/-- **C3 witness.** A trader with balance 50 and medium risk sizing cannot
afford a single share at price 100: the computed quantity is 0 and the call
returns `(none, unchanged state)`. -/
theorem buy_no_trade_witness :
    execute_buy_trade
        { trader := { risk_tolerance := "medium", current_balance := 50,
                      last_trade_at := none },
          holdings := [], trades := [] } "AAPL" 100 0 =
      (none,
       { trader := { risk_tolerance := "medium", current_balance := 50,
                     last_trade_at := none },
         holdings := [], trades := [] }) := by
  apply buy_no_trade
  left
  simp [get_position_size, truncInt]
  norm_num

/-! ## The ledger invariant (C1)

`holding.total_cost` must reconcile with `quantity * average_price` within
one cent, quantities must be non-negative, and the balance must never go
negative, after every operation of any buy/sell sequence. -/

/-- A single holding row is well formed: non-negative quantity and cost basis
reconciling within one cent. -/
def holding_ok (h : Holding) : Prop :=
  0 ≤ h.quantity ∧
  |h.total_cost - (h.quantity : ℚ) * h.average_price| ≤ 1 / 100

/-- The ledger invariant: non-negative balance and every holding well
formed. -/
def ledger_inv (st : LedgerState) : Prop :=
  0 ≤ st.trader.current_balance ∧ ∀ h ∈ st.holdings, holding_ok h

instance (h : Holding) : Decidable (holding_ok h) := by
  unfold holding_ok; infer_instance

instance (st : LedgerState) : Decidable (ledger_inv st) := by
  unfold ledger_inv; infer_instance

/-- One settlement request: a buy or a sell of a ticker at the market price
supplied with the decision, stamped at an abstract time. -/
inductive TradeOp where
  | buy (ticker : String) (price : ℚ) (now : ℕ)
  | sell (ticker : String) (price : ℚ) (now : ℕ)
  deriving Repr, DecidableEq

/-- The market price carried by an operation. -/
def TradeOp.price : TradeOp → ℚ
  | .buy _ p _ => p
  | .sell _ p _ => p

/-- Apply one operation to the ledger state (the returned trade dict is
dropped; only the state matters for the invariant). -/
def applyOp (st : LedgerState) : TradeOp → LedgerState
  | .buy t p n => (execute_buy_trade st t p n).2
  | .sell t p n => (execute_sell_trade st t p n).2

/-- Run a sequence of operations left to right. -/
def runOps (st : LedgerState) (ops : List TradeOp) : LedgerState :=
  ops.foldl applyOp st

theorem buy_preserves_inv (st : LedgerState) (t : String) (p : ℚ) (n : ℕ)
    (hinv : ledger_inv st) : ledger_inv (execute_buy_trade st t p n).2 := by
  by_cases hq : truncInt (st.trader.current_balance *
      get_position_size st.trader.risk_tolerance / p) ≤ 0
  · simp only [execute_buy_trade, if_pos hq]; exact hinv
  · by_cases hlt : st.trader.current_balance <
        (truncInt (st.trader.current_balance *
            get_position_size st.trader.risk_tolerance / p) : ℚ) * p
    · simp only [execute_buy_trade, if_neg hq, if_pos hlt]; exact hinv
    · set q : ℤ := truncInt (st.trader.current_balance *
        get_position_size st.trader.risk_tolerance / p) with hqdef
      have hqpos : 0 < q := by omega
      rcases hfind : findHolding st.holdings t with - | h0
      · simp only [execute_buy_trade, ← hqdef, if_neg hq, if_neg hlt, hfind]
        constructor
        · simpa using not_lt.mp hlt
        · intro x hx
          rcases List.mem_append.mp hx with hx | hx
          · exact hinv.2 x hx
          · rcases List.mem_singleton.mp hx with rfl
            refine ⟨le_of_lt hqpos, ?_⟩
            simp
      · simp only [execute_buy_trade, ← hqdef, if_neg hq, if_neg hlt, hfind]
        constructor
        · simpa using not_lt.mp hlt
        · intro x hx
          rcases mem_updateFirst hx with hx | ⟨h1, hfind1, rfl⟩
          · exact hinv.2 x hx
          · have h1eq : h1 = h0 := by
              have := hfind1
              unfold findHolding at hfind
              rw [hfind] at this
              exact (Option.some_injective _ this).symm
            subst h1eq
            have hmem : h1 ∈ st.holdings :=
              List.mem_of_find?_eq_some hfind1
            have hok := hinv.2 h1 hmem
            have hqsum : (0 : ℤ) < h1.quantity + q := by
              have := hok.1; omega
            have hne : ((h1.quantity + q : ℤ) : ℚ) ≠ 0 := by
              exact_mod_cast ne_of_gt hqsum
            refine ⟨show (0 : ℤ) ≤ h1.quantity + q from le_of_lt hqsum, ?_⟩
            have hcancel : ((h1.quantity + q : ℤ) : ℚ) *
                ((h1.total_cost + (q : ℚ) * p) /
                  ((h1.quantity + q : ℤ) : ℚ)) =
                h1.total_cost + (q : ℚ) * p := by
              rw [mul_comm]
              exact div_mul_cancel₀ _ hne
            show |h1.total_cost + (q : ℚ) * p -
                ((h1.quantity + q : ℤ) : ℚ) *
                  ((h1.total_cost + (q : ℚ) * p) /
                    ((h1.quantity + q : ℤ) : ℚ))| ≤ 1 / 100
            rw [hcancel, sub_self, abs_zero]
            norm_num

theorem sell_preserves_inv (st : LedgerState) (t : String) (p : ℚ) (n : ℕ)
    (hp : 0 ≤ p) (hinv : ledger_inv st) :
    ledger_inv (execute_sell_trade st t p n).2 := by
  rcases hfind : findHolding st.holdings t with - | h
  · simp only [execute_sell_trade, hfind]; exact hinv
  · by_cases hq : h.quantity ≤ 0
    · simp only [execute_sell_trade, hfind, if_pos hq]; exact hinv
    · have hmem : h ∈ st.holdings := List.mem_of_find?_eq_some hfind
      have hok := hinv.2 h hmem
      set s : ℤ := if 2 < h.quantity then h.quantity / 2 else h.quantity
        with hsdef
      have hs : 0 ≤ s ∧ s ≤ h.quantity := by
        rw [hsdef]; split_ifs <;> omega
      have hbal : 0 ≤ st.trader.current_balance + (s : ℚ) * p :=
        add_nonneg hinv.1 (mul_nonneg (by exact_mod_cast hs.1) hp)
      by_cases hrem : h.quantity - s = 0
      · simp only [execute_sell_trade, hfind, if_neg hq, ← hsdef, hrem,
          if_pos rfl]
        refine ⟨hbal, ?_⟩
        intro x hx
        exact hinv.2 x (mem_removeFirst hx)
      · simp only [execute_sell_trade, hfind, if_neg hq, ← hsdef,
          if_neg hrem]
        refine ⟨hbal, ?_⟩
        intro x hx
        rcases mem_updateFirst hx with hx | ⟨h1, hfind1, rfl⟩
        · exact hinv.2 x hx
        · have h1eq : h1 = h := by
            have := hfind1
            unfold findHolding at hfind
            rw [hfind] at this
            exact (Option.some_injective _ this).symm
          subst h1eq
          refine ⟨show (0 : ℤ) ≤ h1.quantity - s by omega, ?_⟩
          have heq : h1.total_cost - h1.average_price * (s : ℚ) -
              ((h1.quantity - s : ℤ) : ℚ) * h1.average_price =
              h1.total_cost - (h1.quantity : ℚ) * h1.average_price := by
            push_cast
            ring
          show |h1.total_cost - h1.average_price * (s : ℚ) -
              ((h1.quantity - s : ℤ) : ℚ) * h1.average_price| ≤ 1 / 100
          rw [heq]
          exact hok.2

theorem runOps_preserves_inv (st : LedgerState) (ops : List TradeOp)
    (hp : ∀ op ∈ ops, 0 ≤ op.price) (hinv : ledger_inv st) :
    ledger_inv (runOps st ops) := by
  induction ops generalizing st with
  | nil => exact hinv
  | cons op rest ih =>
    have hop : 0 ≤ op.price := hp op (List.mem_cons_self _ _)
    have hrest : ∀ o ∈ rest, 0 ≤ o.price := fun o ho =>
      hp o (List.mem_cons_of_mem _ ho)
    show ledger_inv (runOps (applyOp st op) rest)
    apply ih _ hrest
    cases op with
    | buy t p n => exact buy_preserves_inv st t p n hinv
    | sell t p n => exact sell_preserves_inv st t p n hop hinv

/-- **C1.** Starting from a trader with non-negative balance and no holdings,
after each operation of any sequence of `execute_buy_trade` /
`execute_sell_trade` calls (at the non-negative market prices supplied with
the decisions), every surviving holding satisfies
`total_cost = quantity * average_price` within one cent, every holding
quantity is non-negative, and `current_balance` is never negative. -/
theorem ledger_invariant_sequences (st0 : LedgerState) (ops : List TradeOp)
    (hb : 0 ≤ st0.trader.current_balance) (hh : st0.holdings = [])
    (hp : ∀ op ∈ ops, 0 ≤ op.price) :
    ∀ pre, pre <+: ops → ledger_inv (runOps st0 pre) := by
  intro pre hpre
  apply runOps_preserves_inv
  · intro op hop
    exact hp op (hpre.subset hop)
  · refine ⟨hb, ?_⟩
    rw [hh]
    intro h hmem
    cases hmem

/-- **C1 witness.** A concrete two-operation run — buy then sell at price
100 from balance 10000 — ends (and passes through) states satisfying the
ledger invariant. -/
theorem ledger_invariant_sequences_witness :
    ledger_inv (runOps
      { trader := { risk_tolerance := "medium", current_balance := 10000,
                    last_trade_at := none },
        holdings := [], trades := [] }
      [.buy "AAPL" 100 0, .sell "AAPL" 100 1]) := by
  apply ledger_invariant_sequences _ _ (by norm_num) rfl _ _
    (List.prefix_refl _)
  intro op hop
  rcases List.mem_cons.mp hop with rfl | hop
  · norm_num [TradeOp.price]
  · rcases List.mem_cons.mp hop with rfl | hop
    · norm_num [TradeOp.price]
    · cases hop

/-! ## Indicator engine: RSI

`IndicatorService._calculate_rsi` (`app/services/indicator_service.py`):

    delta = df['Close'].diff()
    gain = (delta.where(delta > 0, 0)).rolling(window=14).mean()
    loss = (-delta.where(delta < 0, 0)).rolling(window=14).mean()
    rs = gain / loss
    df['RSI'] = 100 - (100 / (1 + rs))

Prices are embedded as exact rationals.  The value at the final index of a
series of `n ≥ 15` closes averages the clamped deltas of the trailing
14-period window.  Pandas computes `rs = gain / loss` in IEEE floats: when
`loss = 0` and `gain > 0` the quotient is `+inf` and
`100 - 100/(1 + inf) = 100.0`; when both are `0` (a flat window) the quotient
is `NaN` and so is the RSI.  `rsi_last` makes those two float outcomes
explicit: `some 100` and `none`. -/

/-- The RSI averaging window (`IndicatorService.RSI_WINDOW`). -/
def RSI_WINDOW : ℕ := 14

/-- `df['Close'].diff()` without its leading `NaN`: consecutive close-to-close
changes, oldest first. -/
def closeDiffs (closes : List ℚ) : List ℚ :=
  (closes.zip closes.tail).map (fun pr => pr.2 - pr.1)

/-- The last `n` elements of a list (the trailing rolling window at the final
index). -/
def lastWindow (n : ℕ) (l : List ℚ) : List ℚ := l.drop (l.length - n)

/-- `delta.where(delta > 0, 0)` averaged over the trailing window:
the mean of positive deltas, zero-clamped. -/
def avg_gain_last (closes : List ℚ) : ℚ :=
  ((lastWindow RSI_WINDOW (closeDiffs closes)).map
    (fun d => max d 0)).sum / (RSI_WINDOW : ℚ)

/-- `-delta.where(delta < 0, 0)` averaged over the trailing window:
the mean of negated negative deltas, zero-clamped. -/
def avg_loss_last (closes : List ℚ) : ℚ :=
  ((lastWindow RSI_WINDOW (closeDiffs closes)).map
    (fun d => max (-d) 0)).sum / (RSI_WINDOW : ℚ)

/-- The RSI at the final index: `100 - 100/(1 + gain/loss)`, with the IEEE
division-by-zero outcomes of the pandas computation made explicit (see the
section comment). -/
def rsi_last (closes : List ℚ) : Option ℚ :=
  let g := avg_gain_last closes
  let l := avg_loss_last closes
  if l = 0 then (if g = 0 then none else some 100)
  else some (100 - 100 / (1 + g / l))

theorem avg_gain_last_nonneg (closes : List ℚ) : 0 ≤ avg_gain_last closes := by
  unfold avg_gain_last
  apply div_nonneg _ (by norm_num [RSI_WINDOW])
  apply List.sum_nonneg
  intro x hx
  rcases List.mem_map.mp hx with ⟨d, -, rfl⟩
  exact le_max_right d 0

theorem avg_loss_last_nonneg (closes : List ℚ) : 0 ≤ avg_loss_last closes := by
  unfold avg_loss_last
  apply div_nonneg _ (by norm_num [RSI_WINDOW])
  apply List.sum_nonneg
  intro x hx
  rcases List.mem_map.mp hx with ⟨d, -, rfl⟩
  exact le_max_right (-d) 0

/-- **C6.** For every price series with at least 15 closes, every RSI value
the indicator engine computes lies within `[0, 100]` (non-degenerate inputs
are exactly those where the value is defined), and whenever the trailing
average loss is zero the computed RSI equals 100. -/
theorem rsi_range (closes : List ℚ) (_hlen : 15 ≤ closes.length) :
    (∀ r, rsi_last closes = some r → 0 ≤ r ∧ r ≤ 100) ∧
    (avg_loss_last closes = 0 → avg_gain_last closes ≠ 0 →
      rsi_last closes = some 100) := by
  constructor
  · intro r hr
    unfold rsi_last at hr
    by_cases hl : avg_loss_last closes = 0
    · rw [if_pos hl] at hr
      by_cases hg : avg_gain_last closes = 0
      · rw [if_pos hg] at hr; cases hr
      · rw [if_neg hg] at hr
        cases hr
        norm_num
    · rw [if_neg hl] at hr
      cases hr
      have hg : 0 ≤ avg_gain_last closes := avg_gain_last_nonneg closes
      have hlpos : 0 < avg_loss_last closes :=
        lt_of_le_of_ne (avg_loss_last_nonneg closes) (Ne.symm hl)
      have hrs : 0 ≤ avg_gain_last closes / avg_loss_last closes :=
        div_nonneg hg (le_of_lt hlpos)
      have h1 : (1 : ℚ) ≤ 1 + avg_gain_last closes / avg_loss_last closes :=
        by linarith
      have hfrac_pos : 0 < 100 / (1 + avg_gain_last closes /
          avg_loss_last closes) := by positivity
      have hfrac_le : 100 / (1 + avg_gain_last closes / avg_loss_last closes)
          ≤ 100 := by
        apply div_le_self (by norm_num) h1
      constructor <;> linarith
  · intro hl hg
    unfold rsi_last
    rw [if_pos hl, if_neg hg]

/-- **C6 witness.** An alternating 15-close series (avg gain = avg loss)
yields RSI 50 ∈ [0, 100]; a strictly rising 15-close series has zero average
loss and RSI exactly 100. -/
theorem rsi_range_witness :
    (0 ≤ (50 : ℚ) ∧ (50 : ℚ) ≤ 100) ∧
    rsi_last [1, 2, 3, 4, 5, 6, 7, 8, 9, 10, 11, 12, 13, 14, 15] =
      some 100 := by
  constructor
  · apply (rsi_range [1, 2, 1, 2, 1, 2, 1, 2, 1, 2, 1, 2, 1, 2, 1]
      (by simp)).1 50
    norm_num [rsi_last, avg_gain_last, avg_loss_last, lastWindow, closeDiffs,
      RSI_WINDOW]
  · apply (rsi_range [1, 2, 3, 4, 5, 6, 7, 8, 9, 10, 11, 12, 13, 14, 15]
      (by simp)).2
    · norm_num [avg_loss_last, lastWindow, closeDiffs, RSI_WINDOW]
    · norm_num [avg_gain_last, lastWindow, closeDiffs, RSI_WINDOW]

/-! ## Quota governor

`ApiLimitService` (`src/services/api_limit_service.py`).  The persisted
`ApiUsageLog` table becomes a list of `(date, call_count)` rows keyed by
calendar date (abstracted as `ℕ`); the class-level per-minute throttling
state becomes explicit fields.  `datetime.utcnow()` timestamps are abstracted
as `ℕ` seconds. -/

/-- One `ApiUsageLog` row. -/
structure ApiUsage where
  date : ℕ
  call_count : ℕ
  deriving Repr, DecidableEq

/-- The state `can_make_request` / `record_api_call` read and write: the
usage-log table plus the class-level minute-window attributes
(`_minute_start_time`, `_request_count_this_minute`). -/
structure ApiState where
  logs : List ApiUsage
  minute_start : Option ℕ
  minute_count : ℕ
  deriving Repr, DecidableEq

/-- `ApiLimitService.DAILY_LIMIT` (Alpha Vantage free tier). -/
def DAILY_LIMIT : ℕ := 25

/-- `ApiLimitService.MINUTE_LIMIT`. -/
def MINUTE_LIMIT : ℕ := 5

/-- `ApiLimitService.SAFETY_BUFFER`. -/
def SAFETY_BUFFER : ℕ := 2

/-- The reason string returned alongside the boolean, as a tag. -/
inductive QuotaReason where
  | dailyLimitReached (count : ℕ)
  | minuteLimitReached (count : ℕ)
  | ok (daily minute : ℕ)
  deriving Repr, DecidableEq

/-- `ApiUsageLog.query.filter_by(date=today).first()`. -/
def findLog (logs : List ApiUsage) (d : ℕ) : Option ApiUsage :=
  logs.find? (fun u => u.date == d)

/-- Today's persisted call count (0 when no row exists yet). -/
def dailyCount (st : ApiState) (d : ℕ) : ℕ :=
  match findLog st.logs d with
  | some u => u.call_count
  | none => 0

/-- `ApiLimitService.can_make_request` (lines 49-97): create today's row if
missing, refuse with a daily-limit reason when
`DAILY_LIMIT - call_count - SAFETY_BUFFER ≤ 0`, otherwise run the
minute-window logic and refuse when the window already holds `MINUTE_LIMIT`
requests. -/
def can_make_request (today now : ℕ) (st : ApiState) :
    (Bool × QuotaReason) × ApiState :=
  let count := dailyCount st today
  let logs1 :=
    match findLog st.logs today with
    | some _ => st.logs
    | none => st.logs ++ [{ date := today, call_count := 0 }]
  let st1 : ApiState := { st with logs := logs1 }
  let daily_remaining : ℤ :=
    (DAILY_LIMIT : ℤ) - (count : ℤ) - (SAFETY_BUFFER : ℤ)
  if daily_remaining ≤ 0 then
    ((false, .dailyLimitReached count), st1)
  else
    let start_reset :=
      match st1.minute_start with
      | none => (now, 0)
      | some s => if 60 ≤ now - s then (now, 0) else (s, st1.minute_count)
    let st2 : ApiState :=
      { st1 with minute_start := some start_reset.1,
                 minute_count := start_reset.2 }
    if MINUTE_LIMIT ≤ st2.minute_count then
      ((false, .minuteLimitReached st2.minute_count), st2)
    else
      ((true, .ok count st2.minute_count), st2)

/-- `ApiLimitService.record_api_call` (lines 117-142): increment today's row,
creating it with count 1 when absent.  The first matching row is updated in
place, mirroring `query.first()` followed by `call_count += 1`. -/
def bumpLog (d : ℕ) : List ApiUsage → List ApiUsage
  | [] => [{ date := d, call_count := 1 }]
  | u :: us =>
    if u.date == d then { u with call_count := u.call_count + 1 } :: us
    else u :: bumpLog d us

/-- `ApiLimitService.record_api_call`, on the whole state. -/
def record_api_call (d : ℕ) (st : ApiState) : ApiState :=
  { st with logs := bumpLog d st.logs }

theorem dailyCount_record (d : ℕ) (st : ApiState) :
    dailyCount (record_api_call d st) d = dailyCount st d + 1 := by
  show dailyCount { st with logs := bumpLog d st.logs } d = dailyCount st d + 1
  unfold dailyCount findLog
  induction st.logs with
  | nil => simp [bumpLog, List.find?]
  | cons u us ih =>
    by_cases hd : u.date == d
    · rw [bumpLog, if_pos hd]
      rw [@List.find?_cons_of_pos _ (fun x => x.date == d)
          { u with call_count := u.call_count + 1 } us (by exact hd),
        @List.find?_cons_of_pos _ (fun x => x.date == d) u us hd]
    · rw [bumpLog, if_neg hd]
      rw [@List.find?_cons_of_neg _ (fun x => x.date == d) u (bumpLog d us)
          (by exact hd),
        @List.find?_cons_of_neg _ (fun x => x.date == d) u us hd]
      exact ih

theorem dailyCount_record_iter (d : ℕ) (st : ApiState) (n : ℕ) :
    dailyCount ((record_api_call d)^[n] st) d = dailyCount st d + n := by
  induction n generalizing st with
  | zero => rfl
  | succ k ih =>
    rw [Function.iterate_succ_apply, ih, dailyCount_record]
    omega

/-- **C7.** Once `record_api_call` has been invoked
`DAILY_LIMIT - SAFETY_BUFFER = 23` (or more) times for a calendar day,
`can_make_request` returns `false` with a daily-limit reason for every
subsequent call on that same day, whatever the wall clock and the per-minute
window state. -/
theorem quota_daily_cutoff (st0 : ApiState) (d : ℕ)
    (h0 : dailyCount st0 d = 0) (n now : ℕ)
    (hn : DAILY_LIMIT - SAFETY_BUFFER ≤ n) :
    (can_make_request d now ((record_api_call d)^[n] st0)).1 =
      (false, .dailyLimitReached n) := by
  have hcount : dailyCount ((record_api_call d)^[n] st0) d = n := by
    rw [dailyCount_record_iter, h0, Nat.zero_add]
  have hrem : ((DAILY_LIMIT : ℤ) - (dailyCount ((record_api_call d)^[n] st0) d : ℤ)
      - (SAFETY_BUFFER : ℤ)) ≤ 0 := by
    rw [hcount]
    have h23 : (23 : ℕ) ≤ n := hn
    norm_num [DAILY_LIMIT, SAFETY_BUFFER]
    omega
  unfold can_make_request
  rw [if_pos hrem, hcount]

/-- **C7 witness.** From an empty usage log, 23 recorded calls on day 0 make
`can_make_request` refuse with the daily-limit reason. -/
theorem quota_daily_cutoff_witness :
    (can_make_request 0 0
        ((record_api_call 0)^[23]
          { logs := [], minute_start := none, minute_count := 0 })).1 =
      (false, .dailyLimitReached 23) := by
  apply quota_daily_cutoff
  · rfl
  · decide

/-! ## Watchlist selector

`WatchlistService` (`src/services/watchlist_service.py`).  The `TickerPool`
table becomes a list of entries; the `TickerRotation` table a list of
rotation rows.  `random.sample(population, k)` is an external source of
randomness: it is abstracted as a `sample` function parameter choosing `k` of
the population's elements (theorems that need it assume only that the chosen
elements come from the population, which `random.sample` guarantees).
`list(set(a + b))` deduplicates and forgets order; it is embedded as
`(a ++ b).dedup`, and the claims about the result are stated via membership.
The trader's portfolio rows are reused from the ledger model; held tickers
are computed by `get_trader_portfolio_tickers` (`TradingService`), i.e. the
tickers of rows with positive quantity. -/

/-- A `TickerPool` row (the fields `get_priority_tickers` reads). -/
structure PoolEntry where
  ticker : String
  timezone : String
  is_active : Bool
  deriving Repr, DecidableEq

/-- A `TickerRotation` row. -/
structure RotEntry where
  ticker : String
  timezone : String
  trader_id : ℕ
  last_analyzed_at : ℕ
  analysis_count : ℕ
  deriving Repr, DecidableEq

/-- The `Trader` columns the watchlist selector reads.  A Python `None` or
empty custom watchlist is falsy, as is `watchlist_size == 0`. -/
structure WTrader where
  trader_id : ℕ
  use_custom_watchlist : Bool
  custom_watchlist : List String
  watchlist_size : ℕ
  deriving Repr, DecidableEq

/-- `TickerRotation.query.filter_by(ticker=..., timezone=..., trader_id=...)`. -/
def rotKey (t tz : String) (id : ℕ) (r : RotEntry) : Bool :=
  r.ticker == t && r.timezone == tz && r.trader_id == id

/-- The analysis count recorded for a `(ticker, timezone, trader)` key (0
when no row exists). -/
def rotCount (rot : List RotEntry) (t tz : String) (id : ℕ) : ℕ :=
  match rot.find? (rotKey t tz id) with
  | some r => r.analysis_count
  | none => 0

/-- One iteration of `WatchlistService._track_ticker_rotation`'s loop:
update the first matching rotation row (bump `analysis_count`, stamp
`last_analyzed_at`) or insert a fresh row with count 1. -/
def trackOne (tz : String) (id : ℕ) (now : ℕ) (t : String) :
    List RotEntry → List RotEntry
  | [] => [{ ticker := t, timezone := tz, trader_id := id,
             last_analyzed_at := now, analysis_count := 1 }]
  | r :: rs =>
    if rotKey t tz id r then
      { r with last_analyzed_at := now, analysis_count := r.analysis_count + 1 }
        :: rs
    else r :: trackOne tz id now t rs

/-- `WatchlistService._track_ticker_rotation` (lines 143-185): fold the loop
over the selected tickers. -/
def track_ticker_rotation (id : ℕ) (tz : String) (tickers : List String)
    (now : ℕ) (rot : List RotEntry) : List RotEntry :=
  tickers.foldl (fun acc t => trackOne tz id now t acc) rot

/-- `TickerPool.query.filter_by(timezone=timezone, is_active=True)`. -/
def timezonePool (pool : List PoolEntry) (tz : String) : List PoolEntry :=
  pool.filter (fun p2 => p2.timezone == tz && p2.is_active)

/-- `WatchlistService._get_random_discovery_tickers` (lines 86-141): filter
the pool to the timezone's active entries, exclude the given tickers (the
`notin_` filter is only applied when the exclusion list is non-empty, as in
the Python `if exclude_tickers:` guard), return `[]` when nothing remains,
otherwise sample `min limit |available|` entries and track their rotation.
Returns the selected tickers together with the updated rotation table. -/
def get_random_discovery_tickers (id : ℕ) (tz : String) (limit : ℕ)
    (exclude_tickers : List String) (pool : List PoolEntry)
    (sample : List String → ℕ → List String) (now : ℕ)
    (rot : List RotEntry) : List String × List RotEntry :=
  let base := timezonePool pool tz
  let available :=
    if exclude_tickers.isEmpty then base
    else base.filter (fun p2 => !(exclude_tickers.contains p2.ticker))
  if available.isEmpty then ([], rot)
  else
    let sample_size := min limit available.length
    let selected := sample (available.map PoolEntry.ticker) sample_size
    (selected, track_ticker_rotation id tz selected now rot)

/-- `WatchlistService.get_priority_tickers` (lines 41-84): held tickers are
always included; a trader with a (truthy) custom watchlist samples from it
with no rotation tracking; otherwise discovery tickers come from the
timezone pool via `_get_random_discovery_tickers`.  The result is
`list(set(portfolio + discovery))`, embedded as dedup of the
concatenation. -/
def get_priority_tickers (tr : WTrader) (tz : String)
    (portfolio : List Holding) (pool : List PoolEntry)
    (rot : List RotEntry) (sample : List String → ℕ → List String)
    (limit : ℕ) (now : ℕ) : List String × List RotEntry :=
  let portfolio_tickers := get_trader_portfolio_tickers portfolio
  let discovery_limit :=
    if tr.watchlist_size ≠ 0 then tr.watchlist_size else limit
  if tr.use_custom_watchlist && !tr.custom_watchlist.isEmpty then
    let available_custom :=
      tr.custom_watchlist.filter (fun t => !(portfolio_tickers.contains t))
    let discovery :=
      sample available_custom (min discovery_limit available_custom.length)
    ((portfolio_tickers ++ discovery).dedup, rot)
  else
    let discovery := get_random_discovery_tickers tr.trader_id tz
      discovery_limit portfolio_tickers pool sample now rot
    ((portfolio_tickers ++ discovery.1).dedup, discovery.2)

/-- **C8.** `get_priority_tickers` always returns a list containing every
ticker the trader currently holds with positive quantity, whatever the
discovery limit, sampler or watchlist configuration; and on the
timezone-pool path (no truthy custom watchlist), if the timezone-filtered
active pool is empty, the result is exactly the held tickers — possibly the
empty list. -/
theorem watchlist_includes_held (tr : WTrader) (tz : String)
    (portfolio : List Holding) (pool : List PoolEntry) (rot : List RotEntry)
    (sample : List String → ℕ → List String) (limit now : ℕ) :
    (∀ t ∈ get_trader_portfolio_tickers portfolio,
      t ∈ (get_priority_tickers tr tz portfolio pool rot sample limit now).1) ∧
    ((tr.use_custom_watchlist && !tr.custom_watchlist.isEmpty) = false →
      timezonePool pool tz = [] →
      ∀ t, t ∈ (get_priority_tickers tr tz portfolio pool rot sample limit
          now).1 ↔ t ∈ get_trader_portfolio_tickers portfolio) := by
  by_cases hcustom : (tr.use_custom_watchlist &&
      !tr.custom_watchlist.isEmpty) = true
  · constructor
    · intro t ht
      simp only [get_priority_tickers, if_pos hcustom]
      rw [List.mem_dedup]
      exact List.mem_append_left _ ht
    · intro hfalse
      rw [hcustom] at hfalse
      cases hfalse
  · have hcustom' : (tr.use_custom_watchlist &&
        !tr.custom_watchlist.isEmpty) = false := by
      simpa using hcustom
    constructor
    · intro t ht
      simp only [get_priority_tickers, if_neg hcustom]
      rw [List.mem_dedup]
      exact List.mem_append_left _ ht
    · intro hcf hpool t
      have hempty : (get_random_discovery_tickers tr.trader_id tz
          (if tr.watchlist_size ≠ 0 then tr.watchlist_size else limit)
          (get_trader_portfolio_tickers portfolio) pool sample now rot) =
          ([], rot) := by
        unfold get_random_discovery_tickers
        rw [hpool]
        simp
      simp only [get_priority_tickers, if_neg hcustom, hempty]
      rw [List.mem_dedup, List.append_nil]

/-- **C8 witness.** A held "AAPL" position with an empty pool: the result
contains "AAPL", and membership in the result coincides with membership in
the held tickers (checked at "TSLA", which is in neither). -/
theorem watchlist_includes_held_witness :
    ("AAPL" ∈ (get_priority_tickers
        { trader_id := 1, use_custom_watchlist := false,
          custom_watchlist := [], watchlist_size := 0 }
        "America/New_York"
        [{ ticker := "AAPL", quantity := 1, average_price := 10,
           total_cost := 10, first_purchased_at := 0, last_updated_at := 0 }]
        [] [] (fun l k => l.take k) 6 0).1) ∧
    ("TSLA" ∈ (get_priority_tickers
        { trader_id := 1, use_custom_watchlist := false,
          custom_watchlist := [], watchlist_size := 0 }
        "America/New_York"
        [{ ticker := "AAPL", quantity := 1, average_price := 10,
           total_cost := 10, first_purchased_at := 0, last_updated_at := 0 }]
        [] [] (fun l k => l.take k) 6 0).1 ↔
      "TSLA" ∈ get_trader_portfolio_tickers
        [{ ticker := "AAPL", quantity := 1, average_price := 10,
           total_cost := 10, first_purchased_at := 0,
           last_updated_at := 0 }]) := by
  have h := watchlist_includes_held
    { trader_id := 1, use_custom_watchlist := false,
      custom_watchlist := [], watchlist_size := 0 }
    "America/New_York"
    [{ ticker := "AAPL", quantity := 1, average_price := 10,
       total_cost := 10, first_purchased_at := 0, last_updated_at := 0 }]
    [] [] (fun l k => l.take k) 6 0
  refine ⟨?_, h.2 rfl rfl "TSLA"⟩
  apply h.1
  simp [get_trader_portfolio_tickers]

/-! ## Rotation-count lemmas -/

theorem rotCount_trackOne (tz : String) (id now : ℕ) (x t : String)
    (rot : List RotEntry) :
    rotCount (trackOne tz id now x rot) t tz id =
      rotCount rot t tz id + (if t = x then 1 else 0) := by
  induction rot with
  | nil =>
    by_cases ht : t = x
    · subst ht
      simp [trackOne, rotCount, rotKey, List.find?]
    · rw [if_neg ht]
      have hk : rotKey t tz id
          { ticker := x, timezone := tz, trader_id := id,
            last_analyzed_at := now, analysis_count := 1 } = false := by
        simp [rotKey]
        intro h
        exact absurd h.symm ht
      simp [trackOne, rotCount, List.find?, hk]
  | cons r rs ih =>
    by_cases hk : rotKey x tz id r
    · rw [trackOne, if_pos hk]
      have hsame : rotKey t tz id
          { r with last_analyzed_at := now,
                   analysis_count := r.analysis_count + 1 } =
          rotKey t tz id r := by
        simp [rotKey]
      by_cases hk2 : rotKey t tz id r
      · have htx : t = x := by
          simp [rotKey] at hk hk2
          exact (hk2.1.1).symm.trans hk.1.1
        rw [if_pos htx]
        unfold rotCount
        rw [@List.find?_cons_of_pos _ (rotKey t tz id) _ rs
            (by rw [hsame]; exact hk2),
          @List.find?_cons_of_pos _ (rotKey t tz id) r rs hk2]
      · have htx : ¬ t = x := by
          intro h
          subst h
          exact hk2 hk
        rw [if_neg htx]
        unfold rotCount
        rw [@List.find?_cons_of_neg _ (rotKey t tz id) _ rs
            (by rw [hsame]; simpa using hk2),
          @List.find?_cons_of_neg _ (rotKey t tz id) r rs
            (by simpa using hk2)]
        omega
    · rw [trackOne, if_neg hk]
      by_cases hk2 : rotKey t tz id r
      · have htx : ¬ t = x := by
          intro h
          subst h
          exact hk hk2
        rw [if_neg htx]
        unfold rotCount
        rw [@List.find?_cons_of_pos _ (rotKey t tz id) r
            (trackOne tz id now x rs) hk2,
          @List.find?_cons_of_pos _ (rotKey t tz id) r rs hk2]
        omega
      · unfold rotCount
        rw [@List.find?_cons_of_neg _ (rotKey t tz id) r
            (trackOne tz id now x rs) (by simpa using hk2),
          @List.find?_cons_of_neg _ (rotKey t tz id) r rs
            (by simpa using hk2)]
        exact ih

theorem rotCount_track (id : ℕ) (tz : String) (now : ℕ)
    (tickers : List String) (rot : List RotEntry) (t : String) :
    rotCount (track_ticker_rotation id tz tickers now rot) t tz id =
      rotCount rot t tz id + tickers.count t := by
  induction tickers generalizing rot with
  | nil => simp [track_ticker_rotation]
  | cons x xs ih =>
    show rotCount (track_ticker_rotation id tz xs now
        (trackOne tz id now x rot)) t tz id = _
    rw [ih, rotCount_trackOne, List.count_cons]
    by_cases h : t = x
    · subst h
      have hbe : ((t == t) = true) := by simp
      rw [if_pos rfl, if_pos hbe]
      omega
    · have hbe : ¬ ((x == t) = true) := by
        simp
        intro he
        exact h he.symm
      rw [if_neg h, if_neg hbe]
      omega
theorem rotCount_discovery (id : ℕ) (tz : String) (limit : ℕ)
    (ex : List String) (pool : List PoolEntry)
    (sample : List String → ℕ → List String) (now : ℕ)
    (rot : List RotEntry) (t : String) :
    rotCount (get_random_discovery_tickers id tz limit ex pool sample now
        rot).2 t tz id =
      rotCount rot t tz id +
        (get_random_discovery_tickers id tz limit ex pool sample now
          rot).1.count t := by
  simp only [get_random_discovery_tickers]
  split <;> split
  · simp
  · exact rotCount_track _ _ _ _ _ _
  · simp
  · exact rotCount_track _ _ _ _ _ _

theorem discovery_excludes (id : ℕ) (tz : String) (limit : ℕ)
    (ex : List String) (pool : List PoolEntry)
    (sample : List String → ℕ → List String) (now : ℕ) (rot : List RotEntry)
    (hsub : ∀ l k x, x ∈ sample l k → x ∈ l) (t : String) (ht : t ∈ ex) :
    t ∉ (get_random_discovery_tickers id tz limit ex pool sample now
        rot).1 := by
  simp only [get_random_discovery_tickers]
  split
  · rename_i hex
    rw [List.isEmpty_iff] at hex
    rw [hex] at ht
    cases ht
  · split
    · simp
    · intro hmem
      have hmem2 := hsub _ _ _ hmem
      rcases List.mem_map.mp hmem2 with ⟨p, hp, rfl⟩
      have hfil := List.of_mem_filter hp
      simp at hfil
      exact hfil ht

/-- **C9 (amended).** On each `get_priority_tickers` call, a rotation entry
is recorded exactly once per occurrence of a ticker in the pool-sourced
selection; tickers that entered the result only as held positions receive no
rotation entry; and — contrary to the original claim — when the trader's
custom watchlist is in use, no rotation entry is recorded at all: the custom
branch performs no rotation tracking.  The sampler is assumed to pick
elements of its population, as `random.sample` does. -/
theorem rotation_tracking (tr : WTrader) (tz : String)
    (portfolio : List Holding) (pool : List PoolEntry) (rot : List RotEntry)
    (sample : List String → ℕ → List String) (limit now : ℕ)
    (hsub : ∀ l k x, x ∈ sample l k → x ∈ l) :
    ((tr.use_custom_watchlist && !tr.custom_watchlist.isEmpty) = true →
      (get_priority_tickers tr tz portfolio pool rot sample limit now).2 =
        rot) ∧
    ((tr.use_custom_watchlist && !tr.custom_watchlist.isEmpty) = false →
      ∀ t, rotCount
          (get_priority_tickers tr tz portfolio pool rot sample limit now).2
          t tz tr.trader_id =
        rotCount rot t tz tr.trader_id +
          (get_random_discovery_tickers tr.trader_id tz
            (if tr.watchlist_size ≠ 0 then tr.watchlist_size else limit)
            (get_trader_portfolio_tickers portfolio) pool sample now
            rot).1.count t) ∧
    (∀ t ∈ get_trader_portfolio_tickers portfolio,
      rotCount
          (get_priority_tickers tr tz portfolio pool rot sample limit now).2
          t tz tr.trader_id =
        rotCount rot t tz tr.trader_id) := by
  refine ⟨?_, ?_, ?_⟩
  · intro hc
    simp only [get_priority_tickers, if_pos hc]
  · intro hc t
    have hc2 : ¬((tr.use_custom_watchlist &&
        !tr.custom_watchlist.isEmpty) = true) := by simp [hc]
    simp only [get_priority_tickers, if_neg hc2]
    exact rotCount_discovery _ _ _ _ _ _ _ _ _
  · intro t ht
    by_cases hc : (tr.use_custom_watchlist &&
        !tr.custom_watchlist.isEmpty) = true
    · simp only [get_priority_tickers, if_pos hc]
    · simp only [get_priority_tickers, if_neg hc]
      rw [rotCount_discovery]
      have hnot := discovery_excludes tr.trader_id tz
        (if tr.watchlist_size ≠ 0 then tr.watchlist_size else limit)
        (get_trader_portfolio_tickers portfolio) pool sample now rot hsub t ht
      rw [List.count_eq_zero.mpr hnot]
      omega

/-- **C9 counterexample.** A trader with custom watchlist `["MSFT"]` enabled
and no holdings: `get_priority_tickers` selects the custom-sourced ticker
"MSFT", yet no rotation entry is recorded for it — its analysis count stays
0 and the rotation table is unchanged — refuting the claim that a rotation
entry is recorded for every custom-watchlist-sourced ticker selected. -/
theorem rotation_tracking_counterexample :
    "MSFT" ∈ (get_priority_tickers
        { trader_id := 7, use_custom_watchlist := true,
          custom_watchlist := ["MSFT"], watchlist_size := 6 }
        "America/New_York" [] [] [] (fun l k => l.take k) 6 0).1 ∧
    rotCount (get_priority_tickers
        { trader_id := 7, use_custom_watchlist := true,
          custom_watchlist := ["MSFT"], watchlist_size := 6 }
        "America/New_York" [] [] [] (fun l k => l.take k) 6 0).2
      "MSFT" "America/New_York" 7 = 0 ∧
    (get_priority_tickers
        { trader_id := 7, use_custom_watchlist := true,
          custom_watchlist := ["MSFT"], watchlist_size := 6 }
        "America/New_York" [] [] [] (fun l k => l.take k) 6 0).2 = [] := by
  refine ⟨?_, rfl, rfl⟩
  decide

/-- **C9 witness.** On the pool path — a held "AAPL" position and a pool
containing an active "TSLA" — the selected pool ticker "TSLA" gets exactly
one rotation entry and the held-only ticker "AAPL" gets none. -/
theorem rotation_tracking_witness :
    rotCount (get_priority_tickers
        { trader_id := 1, use_custom_watchlist := false,
          custom_watchlist := [], watchlist_size := 0 }
        "America/New_York"
        [{ ticker := "AAPL", quantity := 1, average_price := 10,
           total_cost := 10, first_purchased_at := 0, last_updated_at := 0 }]
        [{ ticker := "TSLA", timezone := "America/New_York",
           is_active := true }]
        [] (fun l k => l.take k) 2 0).2 "TSLA" "America/New_York" 1 = 1 ∧
    rotCount (get_priority_tickers
        { trader_id := 1, use_custom_watchlist := false,
          custom_watchlist := [], watchlist_size := 0 }
        "America/New_York"
        [{ ticker := "AAPL", quantity := 1, average_price := 10,
           total_cost := 10, first_purchased_at := 0, last_updated_at := 0 }]
        [{ ticker := "TSLA", timezone := "America/New_York",
           is_active := true }]
        [] (fun l k => l.take k) 2 0).2 "AAPL" "America/New_York" 1 = 0 := by
  have h := rotation_tracking
    { trader_id := 1, use_custom_watchlist := false,
      custom_watchlist := [], watchlist_size := 0 }
    "America/New_York"
    [{ ticker := "AAPL", quantity := 1, average_price := 10,
       total_cost := 10, first_purchased_at := 0, last_updated_at := 0 }]
    [{ ticker := "TSLA", timezone := "America/New_York",
       is_active := true }]
    [] (fun l k => l.take k) 2 0
    (fun l k x hx => List.take_subset _ _ hx)
  constructor
  · rw [h.2.1 rfl "TSLA"]
    decide
  · exact h.2.2 "AAPL" (by decide)

end StockSim
